import Mathlib

/-
Verification of the client-side photo application (photos repository).

Two components are embedded here, both translated from the JavaScript
sources:

1. The row-packing layout algorithm of src/photos/static/script.js
   (function createLayout, constant MAX_ROW_UNITS), section Gallery.

2. The pairwise-rating orchestration state machine of
   src/photos/static/rater_script.js (state variables currentPair,
   voteHistory, totalVotes, isVoting, the image sources, and the handlers
   fetchNextPair, sendVote, handleUndo together with the click and
   keyboard listeners), section Rater.
-/

namespace Gallery

/-- Orientation tag of a photo, the only datum the layout algorithm reads
(script.js compares photo.orientation with the string horizontal). -/
inductive Orientation
  | horizontal
  | vertical
deriving DecidableEq

/-- Line 19 of script.js: const MAX_ROW_UNITS = 4. -/
def MAX_ROW_UNITS : Nat := 4

/-- Unit cost of a photo, computed inline in createLayout:
(nextPhoto.orientation === horizontal) ? 2 : 1.  The element type is kept
abstract with an orientation projection, mirroring that createLayout reads
only the orientation field of each photo object. -/
def photoUnits {α : Type} (orient : α → Orientation) (p : α) : Nat :=
  match orient p with
  | .horizontal => 2
  | .vertical => 1

/-- Inner while loop of createLayout (script.js lines 58-66): starting
from the running total rowUnits, repeatedly move the front photo of the
queue into the current row while it fits; the guard
(rowUnits > 0 && rowUnits + nextPhotoUnits > MAX_ROW_UNITS) closes the
row.  Returns (rowPhotos so far, remaining queue). -/
def fillRow {α : Type} (orient : α → Orientation) : List α → Nat → List α × List α
  | [], _ => ([], [])
  | p :: rest, rowUnits =>
      let u := photoUnits orient p
      if 0 < rowUnits ∧ MAX_ROW_UNITS < rowUnits + u then
        ([], p :: rest)
      else
        let pr := fillRow orient rest (rowUnits + u)
        (p :: pr.1, pr.2)

/-- Outer while loop of createLayout (script.js lines 53-71): while the
queue is non-empty, open a row with rowUnits = 0 and run the inner loop.
Since rowUnits starts at 0, the first photo of the queue is always
admitted, so each row is built as p :: (rest of the inner loop); the
recursion terminates because each outer iteration removes at least the
front photo from the queue. -/
def createLayout {α : Type} (orient : α → Orientation) : List α → List (List α)
  | [] => []
  | p :: rest =>
      let pr := fillRow orient rest (photoUnits orient p)
      (p :: pr.1) :: createLayout orient pr.2
termination_by l => l.length
decreasing_by
  have h : ∀ (l : List α) (u : Nat), (fillRow orient l u).2.length ≤ l.length := by
    intro l
    induction l with
    | nil => intro u; simp [fillRow]
    | cons q tl ih =>
        intro u
        simp only [fillRow]
        split
        · simp
        · simpa using Nat.le_succ_of_le (ih _)
  simpa using Nat.lt_succ_of_le (h rest (photoUnits orient p))

end Gallery

namespace Rater

/-
Shallow embedding of rater_script.js.

Execution model.  The script runs on the single-threaded browser event
loop: handlers run atomically between await points, and the only await
points are network round-trips (fetch plus response.json) and image
preloading.  Inspecting the source shows that no shared state is written
between two consecutive awaits of the same handler (sendVote writes
nothing between its fetch and its json; fetchNextPair writes nothing
between its fetch, its json and its preloads; handleUndo likewise), so
each round-trip is modelled as a single suspended task that is settled by
one environment event carrying the combined outcome:

- a vote round-trip outcome is success (response parsed, data.success
  true) or failure (network rejection, json exception, or data.success
  false: all three paths reach the same catch block, lines 96-101);
- a pair-fetch outcome is success with the fetched pair (response ok,
  json parsed, both preloads resolved, lines 44-46) or failure (non-ok
  status, json exception or preload rejection, all reaching the catch on
  lines 48-51);
- an undo round-trip outcome is success (lines 118-126) or failure
  (data.success false or any exception, reaching the catch on line 130).

User events (image clicks, arrow keys, backspace, undo-button clicks)
run synchronously up to the first await of the handler they trigger, so
each user event is one atomic step.  A click on a disabled button is not
delivered by the DOM, which is modelled as a guard on the undoClick
event.  The initial disabled state of the undo button is taken as true
(the page enables it only after the first vote, line 91); while the
history is empty the value is behaviourally irrelevant because
handleUndo returns immediately on empty history (line 109).
-/

/-- Photo reference as served by the backend: { name, url }. -/
structure Photo where
  name : String
  url : String
deriving DecidableEq

/-- The comparison pair: { image_a, image_b }. -/
structure Pair where
  image_a : Photo
  image_b : Photo
deriving DecidableEq

/-- An in-flight network round-trip.  A vote task records the pair that
sendVote optimistically pushed at its start (line 78); this also serves
as the ghost identity of the vote for the server-side ledger. -/
inductive Task
  | fetchPair
  | vote (pushed : Pair)
  | undo
deriving DecidableEq

/-- Loading placeholder written to both images at the start of
fetchNextPair (lines 25-26). -/
def loadingURL : String := "https://placehold.co/800x600/333/555?text=Loading..."

/-- Error placeholder written to both images in the catch of
fetchNextPair (lines 50-51). -/
def errorURL : String := "https://placehold.co/800x600/c0392b/ffffff?text=Error+Loading"

/-- The mutable state of the page.  currentPair, voteHistory, totalVotes
and isVoting are the four state variables of the script (lines 12-15);
undoDisabled is undoButton.disabled; imgASrc and imgBSrc are the src
attributes of the two displayed images; tasks is the list of in-flight
round-trips (oldest first); server is a ghost variable tracking the
votes of this session that the remote service has confirmed and not yet
undone (head = most recent), updated exactly when a vote or undo
round-trip settles successfully. -/
@[ext]
structure St where
  currentPair : Option Pair
  voteHistory : List Pair
  totalVotes : Int
  isVoting : Bool
  undoDisabled : Bool
  imgASrc : String
  imgBSrc : String
  tasks : List Task
  server : List Pair
deriving DecidableEq

/-- True of the vote tasks. -/
def isVoteTask : Task → Bool
  | .vote _ => true
  | _ => false

/-- True of the pair-fetch task. -/
def isFetchTask : Task → Bool
  | .fetchPair => true
  | _ => false

/-- True of the undo tasks. -/
def isUndoTask : Task → Bool
  | .undo => true
  | _ => false

/-- True of the tasks that hold the isVoting lock (a pair fetch or a
vote; undo round-trips never touch isVoting). -/
def isFV : Task → Bool
  | .undo => false
  | _ => true

/-- Number of lock-holding (fetch-or-vote) tasks in flight. -/
def fvCount (l : List Task) : Nat := l.countP isFV

/-- Number of vote round-trips in flight. -/
def voteCount (l : List Task) : Nat := l.countP isVoteTask

/-- The pair pushed by an in-flight vote task, if any. -/
def voteProj : Task → Option Pair
  | .vote p => some p
  | _ => none

/-- Pairs optimistically pushed by the votes currently in flight. -/
def pendingVotes (l : List Task) : List Pair := l.filterMap voteProj

/-- Remove the first task satisfying q (the settling response removes
its own request from flight; tasks of one kind are indistinguishable
except for the recorded pair, and at most one vote or fetch is ever in
flight, so settling the first matching task is faithful). -/
def removeFirst (q : Task → Bool) : List Task → List Task
  | [] => []
  | t :: ts => if q t then ts else t :: removeFirst q ts

/-- Entry into fetchNextPair (lines 20-26): take the lock, show the
loading placeholders, and issue the request. -/
def fetchNextPairStart (s : St) : St :=
  { s with isVoting := true, imgASrc := loadingURL, imgBSrc := loadingURL,
           tasks := s.tasks ++ [Task.fetchPair] }

/-- Settling of a pair fetch.  some data: publish the pair and both
image sources together (lines 44-46); none: write the error placeholder
to both images (lines 50-51), leaving currentPair as it was.  Either
way the finally block releases the lock (line 53). -/
def fetchNextPairResolve (s : St) (r : Option Pair) : St :=
  if Task.fetchPair ∈ s.tasks then
    let rest := removeFirst isFetchTask s.tasks
    match r with
    | some data =>
        { s with currentPair := some data, imgASrc := data.image_a.url,
                 imgBSrc := data.image_b.url, isVoting := false, tasks := rest }
    | none =>
        { s with imgASrc := errorURL, imgBSrc := errorURL, isVoting := false,
                 tasks := rest }
  else s

/-- Entry into sendVote (lines 72-85): the guard
(isVoting || !currentPair) rejects the call, otherwise the lock is
taken, the current pair is pushed onto the history (optimistically,
before the server answers), and the request is issued.  The click
listeners (lines 143-153) and the arrow-key branches of the keydown
listener (lines 159-166) repeat the same guard and then call sendVote in
the same synchronous step, so guard and effect form one atomic step. -/
def sendVoteStart (s : St) : St :=
  if s.isVoting then s
  else
    match s.currentPair with
    | none => s
    | some p =>
        { s with isVoting := true, voteHistory := p :: s.voteHistory,
                 tasks := s.tasks ++ [Task.vote p] }

/-- Settling of a vote round-trip.  On success (lines 88-92): increment
the counter, enable the undo button, record the confirmation in the
ghost server ledger, and immediately run fetchNextPair, whose first
statements execute synchronously, so the lock is never observed free in
between.  On failure (catch, lines 96-101): pop the optimistic history
entry and release the lock.  JavaScript pop on an empty array is a
no-op returning undefined, which List.tail models exactly. -/
def sendVoteResolve (s : St) (ok : Bool) : St :=
  match s.tasks.find? isVoteTask with
  | some (Task.vote p) =>
      let rest := removeFirst isVoteTask s.tasks
      if ok then
        fetchNextPairStart
          { s with totalVotes := s.totalVotes + 1, undoDisabled := false,
                   tasks := rest, server := p :: s.server }
      else
        { s with voteHistory := s.voteHistory.tail, isVoting := false,
                 tasks := rest }
  | _ => s

/-- Entry into handleUndo (lines 108-115): return at once on empty
history, otherwise disable the undo button and issue the request.  Note
that handleUndo checks neither isVoting nor any other lock. -/
def handleUndoStart (s : St) : St :=
  if s.voteHistory.isEmpty then s
  else { s with undoDisabled := true, tasks := s.tasks ++ [Task.undo] }

/-- Settling of an undo round-trip.  On success (lines 118-126): pop the
most recent history entry, publish it as the current pair and both image
sources, and decrement the counter; the ghost ledger pops the vote the
server just reverted.  If the history is empty at that moment, pop
returns undefined: currentPair is assigned undefined, and reading
lastPair.image_a then throws before either image or the counter is
touched, landing in the catch.  On failure (catch, line 130): no state
change.  The finally block (lines 132-137) re-enables the button only
if the history is now non-empty. -/
def handleUndoResolve (s : St) (ok : Bool) : St :=
  if Task.undo ∈ s.tasks then
    let rest := removeFirst isUndoTask s.tasks
    if ok then
      match s.voteHistory with
      | lastPair :: h =>
          { s with voteHistory := h, currentPair := some lastPair,
                   imgASrc := lastPair.image_a.url, imgBSrc := lastPair.image_b.url,
                   totalVotes := s.totalVotes - 1,
                   undoDisabled := if h.isEmpty then s.undoDisabled else false,
                   tasks := rest, server := s.server.tail }
      | [] =>
          { s with currentPair := none, tasks := rest, server := s.server.tail }
    else
      { s with undoDisabled := if s.voteHistory.isEmpty then s.undoDisabled else false,
               tasks := rest }
  else s

/-- The events that drive the machine: the six user inputs, and the
settling of each kind of round-trip by the environment. -/
inductive Ev
  | clickA
  | clickB
  | keyLeft
  | keyRight
  | keyBackspace
  | undoClick
  | voteResolve (ok : Bool)
  | fetchResolve (r : Option Pair)
  | undoResolve (ok : Bool)
deriving DecidableEq

/-- The user-input events. -/
def userEv : Ev → Bool
  | .clickA | .clickB | .keyLeft | .keyRight | .keyBackspace | .undoClick => true
  | _ => false

/-- The four inputs that request a vote. -/
def isVoteEv : Ev → Bool
  | .clickA | .clickB | .keyLeft | .keyRight => true
  | _ => false

/-- One atomic step of the event loop.  Clicks on either image and both
arrow keys run sendVote (which side wins only changes the request body,
not the client state).  The keydown listener (lines 159-170) first
rejects every key while isVoting or without a current pair, and its
Backspace branch additionally requires the undo button to be enabled.
A click on the undo button is delivered only while the button is
enabled. -/
def step (s : St) : Ev → St
  | .clickA => sendVoteStart s
  | .clickB => sendVoteStart s
  | .keyLeft => sendVoteStart s
  | .keyRight => sendVoteStart s
  | .keyBackspace =>
      if s.isVoting then s
      else
        match s.currentPair with
        | none => s
        | some _ => if s.undoDisabled then s else handleUndoStart s
  | .undoClick => if s.undoDisabled then s else handleUndoStart s
  | .voteResolve ok => sendVoteResolve s ok
  | .fetchResolve r => fetchNextPairResolve s r
  | .undoResolve ok => handleUndoResolve s ok

/-- Run a list of events from a state. -/
def run (s : St) : List Ev → St
  | [] => s
  | e :: rest => run (step s e) rest

/-- The page-load state (lines 12-15 followed by the initial
fetchNextPair call on line 173): no current pair, empty history, the
counter at the server-rendered value v0, and the first pair fetch
already in flight. -/
def init (v0 : Nat) : St :=
  fetchNextPairStart
    { currentPair := none, voteHistory := [], totalVotes := (v0 : Int),
      isVoting := false, undoDisabled := true, imgASrc := "", imgBSrc := "",
      tasks := [], server := [] }

/-- A state the machine can reach from some page load by some event
sequence. -/
def Reachable (s : St) : Prop := ∃ (v0 : Nat) (evs : List Ev), run (init v0) evs = s

/-- A vote round-trip and an undo round-trip are simultaneously in
flight. -/
def overlap (s : St) : Bool :=
  (s.tasks.any isVoteTask) && (s.tasks.any isUndoTask)

/-- Checks that no state along the trace (including the final one) ever
has a vote and an undo round-trip in flight together. -/
def traceNoOverlap (s : St) : List Ev → Bool
  | [] => !overlap s
  | e :: rest => !overlap s && traceNoOverlap (step s e) rest

/-- Events allowed in a sequence consisting only of successful votes:
the vote-requesting user inputs, successful vote settlements, and
successful pair-fetch settlements. -/
def succVoteEv : Ev → Bool
  | .clickA | .clickB | .keyLeft | .keyRight => true
  | .voteResolve ok => ok
  | .fetchResolve r => r.isSome
  | _ => false

/-- Events that can occur during a vote round-trip without touching the
machine state: everything except an undo-button click (handleUndo is
not gated by the lock) and the settling of the vote itself. -/
def duringVoteOK : Ev → Bool
  | .undoClick => false
  | .voteResolve _ => false
  | _ => true

/-- Events that can occur during an undo round-trip without touching
the machine state when no other round-trip is in flight: everything
except the four vote-requesting inputs (sendVote is not gated by an
in-flight undo) and the settling of the undo itself. -/
def duringUndoOK : Ev → Bool
  | .clickA | .clickB | .keyLeft | .keyRight => false
  | .undoResolve _ => false
  | _ => true

/-- Lock-discipline invariant: at most one fetch-or-vote round-trip is
in flight, and isVoting is set exactly while one is. -/
def INV1 (s : St) : Prop :=
  fvCount s.tasks ≤ 1 ∧ (s.isVoting = true ↔ fvCount s.tasks = 1)

/-- Without a current pair there is nothing in the history. -/
def INV2 (s : St) : Prop := s.currentPair = none → s.voteHistory = []

/-- The history is exactly the optimistic entries of the votes in
flight followed by the server-confirmed, not-yet-undone votes. -/
def C3INV (s : St) : Prop :=
  s.voteHistory = pendingVotes s.tasks ++ s.server

/-- Counter bookkeeping along success-only traces: the counter plus the
votes still in flight equals the page-load value plus the history
length. -/
def C2INV (v0 : Nat) (s : St) : Prop :=
  s.totalVotes + (voteCount s.tasks : Int) = (v0 : Int) + (s.voteHistory.length : Int)

/-- Concrete photos and pairs for the concrete executions below. -/
def phA : Photo := { name := "a", url := "ua" }

def phB : Photo := { name := "b", url := "ub" }

def phC : Photo := { name := "c", url := "uc" }

def phD : Photo := { name := "d", url := "ud" }

def pr1 : Pair := { image_a := phA, image_b := phB }

def pr2 : Pair := { image_a := phC, image_b := phD }

end Rater

namespace Gallery

theorem fillRow_append {α : Type} (orient : α → Orientation) :
    ∀ (l : List α) (u : Nat), (fillRow orient l u).1 ++ (fillRow orient l u).2 = l := by
  intro l
  induction l with
  | nil => intro u; simp [fillRow]
  | cons p rest ih =>
      intro u
      simp only [fillRow]
      split
      · simp
      · simpa using ih _

theorem fillRow_rem_length {α : Type} (orient : α → Orientation) :
    ∀ (l : List α) (u : Nat), (fillRow orient l u).2.length ≤ l.length := by
  intro l
  induction l with
  | nil => intro u; simp [fillRow]
  | cons q tl ih =>
      intro u
      simp only [fillRow]
      split
      · simp
      · simpa using Nat.le_succ_of_le (ih _)

theorem createLayout_flatten_aux {α : Type} (orient : α → Orientation) :
    ∀ (n : Nat) (l : List α), l.length ≤ n → (createLayout orient l).flatten = l := by
  intro n
  induction n with
  | zero =>
      intro l h
      have : l = [] := List.length_eq_zero.mp (Nat.le_zero.mp h)
      subst this
      simp [createLayout]
  | succ n ih =>
      intro l h
      match l with
      | [] => simp [createLayout]
      | p :: rest =>
          simp only [createLayout, List.flatten_cons]
          have hlen : rest.length ≤ n := by
            simpa using h
          have hrem : (fillRow orient rest (photoUnits orient p)).2.length ≤ n :=
            Nat.le_trans (fillRow_rem_length orient rest (photoUnits orient p)) hlen
          rw [ih _ hrem]
          have := fillRow_append orient rest (photoUnits orient p)
          simp [this]

end Gallery

namespace Rater

theorem removeFirst_eq_of_none (q : Task → Bool) :
    ∀ l : List Task, (∀ t ∈ l, ¬ q t = true) → removeFirst q l = l := by
  intro l
  induction l with
  | nil => intro _; rfl
  | cons t ts ih =>
      intro h
      simp only [removeFirst]
      rw [if_neg, ih]
      · intro x hx; exact h x (List.mem_cons_of_mem _ hx)
      · simpa using h t (List.mem_cons_self _ _)

theorem countP_removeFirst (q r : Task → Bool) :
    ∀ (l : List Task) (t : Task), l.find? q = some t →
      l.countP r = (removeFirst q l).countP r + (if r t then 1 else 0) := by
  intro l
  induction l with
  | nil => intro t h; simp [List.find?] at h
  | cons a ts ih =>
      intro t h
      by_cases hq : q a = true
      · rw [List.find?_cons_of_pos _ hq] at h
        injection h with h
        subst h
        simp [removeFirst, hq, List.countP_cons]
      · rw [List.find?_cons_of_neg _ hq] at h
        simp only [removeFirst, hq, if_neg Bool.false_ne_true, List.countP_cons]
        rw [ih t h]
        omega

theorem mem_of_mem_removeFirst (q : Task → Bool) :
    ∀ (l : List Task) (x : Task), x ∈ removeFirst q l → x ∈ l := by
  intro l
  induction l with
  | nil => intro x h; simpa [removeFirst] using h
  | cons a ts ih =>
      intro x h
      simp only [removeFirst] at h
      by_cases hq : q a = true
      · rw [if_pos hq] at h
        exact List.mem_cons_of_mem _ h
      · rw [if_neg hq] at h
        rcases List.mem_cons.mp h with h | h
        · simp [h]
        · exact List.mem_cons_of_mem _ (ih x h)

theorem filterMap_removeFirst (q : Task → Bool) (f : Task → Option Pair)
    (hf : ∀ t, q t = true → f t = none) :
    ∀ l : List Task, (removeFirst q l).filterMap f = l.filterMap f := by
  intro l
  induction l with
  | nil => rfl
  | cons a ts ih =>
      simp only [removeFirst]
      by_cases hq : q a = true
      · rw [if_pos hq, List.filterMap_cons, hf a hq]
      · rw [if_neg hq, List.filterMap_cons, List.filterMap_cons, ih]

theorem pendingVotes_length :
    ∀ l : List Task, (pendingVotes l).length = voteCount l := by
  intro l
  induction l with
  | nil => rfl
  | cons a ts ih =>
      cases a <;> simp [pendingVotes, voteCount, voteProj, isVoteTask,
        List.filterMap_cons, List.countP_cons, ih, pendingVotes] at * <;> omega

theorem pendingVotes_nil_of_count_zero (l : List Task)
    (h : voteCount l = 0) : pendingVotes l = [] := by
  have := pendingVotes_length l
  rw [h] at this
  exact List.length_eq_zero.mp this

theorem find?_vote_shape (l : List Task) (t : Task)
    (h : l.find? isVoteTask = some t) : ∃ p, t = Task.vote p := by
  have := List.find?_some h
  cases t with
  | vote p => exact ⟨p, rfl⟩
  | fetchPair => simp [isVoteTask] at this
  | undo => simp [isVoteTask] at this

theorem pending_pin :
    ∀ (l : List Task) (p : Pair),
      l.find? isVoteTask = some (Task.vote p) → voteCount l ≤ 1 →
      pendingVotes l = [p] ∧
        pendingVotes (removeFirst isVoteTask l) = [] := by
  intro l
  induction l with
  | nil => intro p h; simp [List.find?] at h
  | cons a ts ih =>
      intro p h hle
      by_cases hq : isVoteTask a = true
      · rw [List.find?_cons_of_pos _ hq] at h
        injection h with h
        subst h
        have hts : voteCount ts = 0 := by
          simp [voteCount, List.countP_cons, isVoteTask] at hle ⊢
          simpa [voteCount] using hle
        have hpts := pendingVotes_nil_of_count_zero ts hts
        constructor
        · simp [pendingVotes, List.filterMap_cons, voteProj]
          simpa [pendingVotes] using hpts
        · simp [removeFirst, isVoteTask]
          simpa [pendingVotes] using hpts
      · rw [List.find?_cons_of_neg _ hq] at h
        have hcount : voteCount ts ≤ 1 := by
          simp [voteCount, List.countP_cons, hq] at hle ⊢
          simpa [voteCount] using hle
        obtain ⟨h1, h2⟩ := ih p h hcount
        have hnone : voteProj a = none := by
          cases a <;> simp [voteProj] <;> simp [isVoteTask] at hq
        constructor
        · simpa [pendingVotes, List.filterMap_cons, hnone] using h1
        · simpa [removeFirst, hq, pendingVotes, List.filterMap_cons, hnone] using h2

theorem tasks_nil_of (l : List Task) (h1 : fvCount l = 0)
    (h2 : Task.undo ∉ l) : l = [] := by
  cases l with
  | nil => rfl
  | cons t ts =>
      cases t with
      | fetchPair => simp [fvCount, List.countP_cons, isFV] at h1
      | vote p => simp [fvCount, List.countP_cons, isFV] at h1
      | undo => simp at h2

end Rater

namespace Rater

@[simp] theorem isFV_vote (p : Pair) : isFV (Task.vote p) = true := rfl

@[simp] theorem isFV_fetch : isFV Task.fetchPair = true := rfl

@[simp] theorem isFV_undo : isFV Task.undo = false := rfl

@[simp] theorem isVoteTask_vote (p : Pair) : isVoteTask (Task.vote p) = true := rfl

@[simp] theorem isVoteTask_fetch : isVoteTask Task.fetchPair = false := rfl

@[simp] theorem isVoteTask_undo : isVoteTask Task.undo = false := rfl

@[simp] theorem isUndoTask_undo : isUndoTask Task.undo = true := rfl

@[simp] theorem isUndoTask_vote (p : Pair) : isUndoTask (Task.vote p) = false := rfl

@[simp] theorem isUndoTask_fetch : isUndoTask Task.fetchPair = false := rfl

@[simp] theorem isFetchTask_fetch : isFetchTask Task.fetchPair = true := rfl

@[simp] theorem isFetchTask_vote (p : Pair) : isFetchTask (Task.vote p) = false := rfl

@[simp] theorem isFetchTask_undo : isFetchTask Task.undo = false := rfl

@[simp] theorem voteProj_vote (p : Pair) : voteProj (Task.vote p) = some p := rfl

@[simp] theorem voteProj_fetch : voteProj Task.fetchPair = none := rfl

@[simp] theorem voteProj_undo : voteProj Task.undo = none := rfl

theorem fvCount_append (l l' : List Task) :
    fvCount (l ++ l') = fvCount l + fvCount l' := by
  simp [fvCount, List.countP_append]

theorem voteCount_append (l l' : List Task) :
    voteCount (l ++ l') = voteCount l + voteCount l' := by
  simp [voteCount, List.countP_append]

theorem voteCount_le_fvCount (l : List Task) : voteCount l ≤ fvCount l := by
  induction l with
  | nil => simp [voteCount, fvCount]
  | cons t ts ih =>
      cases t <;>
        simp [voteCount, fvCount, List.countP_cons, isVoteTask, isFV] at * <;>
        omega

theorem inv1_sendVoteStart (s : St) (h : INV1 s) : INV1 (sendVoteStart s) := by
  obtain ⟨h1, h2⟩ := h
  unfold sendVoteStart
  by_cases hv : s.isVoting = true
  · rw [if_pos hv]; exact ⟨h1, h2⟩
  · rw [if_neg hv]
    cases hc : s.currentPair with
    | none => exact ⟨h1, h2⟩
    | some p =>
        have hz : fvCount s.tasks = 0 := by
          have : ¬ fvCount s.tasks = 1 := fun he => hv (h2.mpr he)
          omega
        have hsing : fvCount (s.tasks ++ [Task.vote p]) = 1 := by
          rw [fvCount_append, hz]
          simp [fvCount, List.countP_cons]
        exact ⟨by simp [hsing], by simp [hsing]⟩

theorem inv1_handleUndoStart (s : St) (h : INV1 s) : INV1 (handleUndoStart s) := by
  obtain ⟨h1, h2⟩ := h
  unfold handleUndoStart
  by_cases he : s.voteHistory.isEmpty = true
  · rw [if_pos he]; exact ⟨h1, h2⟩
  · rw [if_neg he]
    have hsame : fvCount (s.tasks ++ [Task.undo]) = fvCount s.tasks := by
      rw [fvCount_append]
      simp [fvCount, List.countP_cons]
    exact ⟨by simpa [hsame] using h1, by simpa [hsame] using h2⟩

theorem inv1_sendVoteResolve (s : St) (ok : Bool) (h : INV1 s) :
    INV1 (sendVoteResolve s ok) := by
  obtain ⟨h1, h2⟩ := h
  unfold sendVoteResolve
  cases hf : s.tasks.find? isVoteTask with
  | none => exact ⟨h1, h2⟩
  | some t =>
      obtain ⟨p, rfl⟩ := find?_vote_shape s.tasks t hf
      have hmem := List.mem_of_find?_eq_some hf
      have hpos : 0 < fvCount s.tasks :=
        List.countP_pos.mpr ⟨_, hmem, by simp [isFV]⟩
      have hone : fvCount s.tasks = 1 := by omega
      have hcnt := countP_removeFirst isVoteTask isFV s.tasks _ hf
      have hrest : fvCount (removeFirst isVoteTask s.tasks) = 0 := by
        simp [isFV] at hcnt
        have : fvCount s.tasks = fvCount (removeFirst isVoteTask s.tasks) + 1 := by
          simpa [fvCount] using hcnt
        omega
      have hsing : fvCount (removeFirst isVoteTask s.tasks ++ [Task.fetchPair]) = 1 := by
        rw [fvCount_append, hrest]
        simp [fvCount, List.countP_cons]
      cases ok with
      | true => exact ⟨by simp [fetchNextPairStart, hsing], by simp [fetchNextPairStart, hsing]⟩
      | false => exact ⟨by simp [hrest], by simp [hrest]⟩

theorem inv1_fetchNextPairResolve (s : St) (r : Option Pair) (h : INV1 s) :
    INV1 (fetchNextPairResolve s r) := by
  obtain ⟨h1, h2⟩ := h
  unfold fetchNextPairResolve
  by_cases hm : Task.fetchPair ∈ s.tasks
  · rw [if_pos hm]
    have hpos : 0 < fvCount s.tasks :=
      List.countP_pos.mpr ⟨_, hm, by simp [isFV]⟩
    have hsome : (s.tasks.find? isFetchTask).isSome = true :=
      List.find?_isSome.mpr ⟨Task.fetchPair, hm, rfl⟩
    have hfind : ∃ t, s.tasks.find? isFetchTask = some t := by
      cases hft : s.tasks.find? isFetchTask with
      | none => rw [hft] at hsome; simp at hsome
      | some t => exact ⟨t, rfl⟩
    obtain ⟨t, hft⟩ := hfind
    have htf : t = Task.fetchPair := by
      have := List.find?_some hft
      cases t <;> simp [isFetchTask] at this ⊢
    subst htf
    have hcnt := countP_removeFirst isFetchTask isFV s.tasks _ hft
    have hrest : fvCount (removeFirst isFetchTask s.tasks) = 0 := by
      simp [isFV] at hcnt
      have : fvCount s.tasks = fvCount (removeFirst isFetchTask s.tasks) + 1 := by
        simpa [fvCount] using hcnt
      omega
    cases r with
    | some data => exact ⟨by simp [hrest], by simp [hrest]⟩
    | none => exact ⟨by simp [hrest], by simp [hrest]⟩
  · rw [if_neg hm]; exact ⟨h1, h2⟩

theorem inv1_handleUndoResolve (s : St) (ok : Bool) (h : INV1 s) :
    INV1 (handleUndoResolve s ok) := by
  obtain ⟨h1, h2⟩ := h
  unfold handleUndoResolve
  by_cases hm : Task.undo ∈ s.tasks
  · rw [if_pos hm]
    have hsome : (s.tasks.find? isUndoTask).isSome = true :=
      List.find?_isSome.mpr ⟨Task.undo, hm, rfl⟩
    have hfind : ∃ t, s.tasks.find? isUndoTask = some t := by
      cases hft : s.tasks.find? isUndoTask with
      | none => rw [hft] at hsome; simp at hsome
      | some t => exact ⟨t, rfl⟩
    obtain ⟨t, hft⟩ := hfind
    have htf : t = Task.undo := by
      have := List.find?_some hft
      cases t <;> simp [isUndoTask] at this ⊢
    subst htf
    have hcnt := countP_removeFirst isUndoTask isFV s.tasks _ hft
    have hrest : fvCount (removeFirst isUndoTask s.tasks) = fvCount s.tasks := by
      simp [isFV] at hcnt
      simpa [fvCount] using hcnt.symm
    cases ok with
    | true =>
        cases hh : s.voteHistory with
        | nil => exact ⟨by simpa [hrest] using h1, by simpa [hrest] using h2⟩
        | cons q rest => exact ⟨by simpa [hrest] using h1, by simpa [hrest] using h2⟩
    | false => exact ⟨by simpa [hrest] using h1, by simpa [hrest] using h2⟩
  · rw [if_neg hm]; exact ⟨h1, h2⟩

theorem inv1_step (s : St) (e : Ev) (h : INV1 s) : INV1 (step s e) := by
  cases e with
  | clickA => exact inv1_sendVoteStart s h
  | clickB => exact inv1_sendVoteStart s h
  | keyLeft => exact inv1_sendVoteStart s h
  | keyRight => exact inv1_sendVoteStart s h
  | keyBackspace =>
      simp only [step]
      by_cases hv : s.isVoting = true
      · rw [if_pos hv]; exact h
      · rw [if_neg hv]
        cases s.currentPair with
        | none => exact h
        | some p =>
            by_cases hd : s.undoDisabled = true
            · rw [if_pos hd]; exact h
            · rw [if_neg hd]; exact inv1_handleUndoStart s h
  | undoClick =>
      simp only [step]
      by_cases hd : s.undoDisabled = true
      · rw [if_pos hd]; exact h
      · rw [if_neg hd]; exact inv1_handleUndoStart s h
  | voteResolve ok => exact inv1_sendVoteResolve s ok h
  | fetchResolve r => exact inv1_fetchNextPairResolve s r h
  | undoResolve ok => exact inv1_handleUndoResolve s ok h

theorem inv1_run (evs : List Ev) : ∀ s : St, INV1 s → INV1 (run s evs) := by
  induction evs with
  | nil => intro s h; exact h
  | cons e rest ih => intro s h; exact ih _ (inv1_step s e h)

theorem inv1_init (v0 : Nat) : INV1 (init v0) := by
  constructor
  · simp [init, fetchNextPairStart, fvCount, List.countP_cons, isFV]
  · simp [init, fetchNextPairStart, fvCount, List.countP_cons, isFV]

theorem inv1_reachable (s : St) (h : Reachable s) : INV1 s := by
  obtain ⟨v0, evs, rfl⟩ := h
  exact inv1_run evs _ (inv1_init v0)

end Rater

namespace Rater

theorem inv2_step (s : St) (e : Ev) (h : INV2 s) : INV2 (step s e) := by
  cases e with
  | clickA | clickB | keyLeft | keyRight =>
      simp only [step, sendVoteStart]
      by_cases hv : s.isVoting = true
      · rw [if_pos hv]; exact h
      · rw [if_neg hv]
        cases hc : s.currentPair with
        | none => exact h
        | some p => intro hn; simp at hn
  | keyBackspace =>
      simp only [step]
      by_cases hv : s.isVoting = true
      · rw [if_pos hv]; exact h
      · rw [if_neg hv]
        cases s.currentPair with
        | none => exact h
        | some p =>
            by_cases hd : s.undoDisabled = true
            · rw [if_pos hd]; exact h
            · rw [if_neg hd]
              unfold handleUndoStart
              by_cases he : s.voteHistory.isEmpty = true
              · rw [if_pos he]; exact h
              · rw [if_neg he]; intro hn; exact h hn
  | undoClick =>
      simp only [step]
      by_cases hd : s.undoDisabled = true
      · rw [if_pos hd]; exact h
      · rw [if_neg hd]
        unfold handleUndoStart
        by_cases he : s.voteHistory.isEmpty = true
        · rw [if_pos he]; exact h
        · rw [if_neg he]; intro hn; exact h hn
  | voteResolve ok =>
      simp only [step, sendVoteResolve]
      cases hf : s.tasks.find? isVoteTask with
      | none => exact h
      | some t =>
          obtain ⟨p, rfl⟩ := find?_vote_shape s.tasks t hf
          cases ok with
          | true =>
              intro hn
              simp [fetchNextPairStart] at hn ⊢
              exact h hn
          | false =>
              intro hn
              simp at hn ⊢
              rw [h hn]
              rfl
  | fetchResolve r =>
      simp only [step, fetchNextPairResolve]
      by_cases hm : Task.fetchPair ∈ s.tasks
      · rw [if_pos hm]
        cases r with
        | some data => intro hn; simp at hn
        | none => intro hn; simp at hn; exact h hn
      · rw [if_neg hm]; exact h
  | undoResolve ok =>
      simp only [step, handleUndoResolve]
      by_cases hm : Task.undo ∈ s.tasks
      · rw [if_pos hm]
        cases ok with
        | true =>
            cases hh : s.voteHistory with
            | nil => intro _; simp
            | cons q rest => intro hn; simp at hn
        | false => intro hn; simp at hn; exact h hn
      · rw [if_neg hm]; exact h

theorem inv2_run (evs : List Ev) : ∀ s : St, INV2 s → INV2 (run s evs) := by
  induction evs with
  | nil => intro s h; exact h
  | cons e rest ih => intro s h; exact ih _ (inv2_step s e h)

theorem inv2_init (v0 : Nat) : INV2 (init v0) := by
  intro _
  rfl

theorem inv2_reachable (s : St) (h : Reachable s) : INV2 s := by
  obtain ⟨v0, evs, rfl⟩ := h
  exact inv2_run evs _ (inv2_init v0)

theorem run_append (l1 l2 : List Ev) :
    ∀ s : St, run s (l1 ++ l2) = run (run s l1) l2 := by
  induction l1 with
  | nil => intro s; rfl
  | cons e rest ih => intro s; simp only [List.cons_append, run]; exact ih _

theorem tasks_eq_nil_of_unlocked (s : St) (h : INV1 s) (hv : s.isVoting = false)
    (hu : Task.undo ∉ s.tasks) : s.tasks = [] := by
  obtain ⟨h1, h2⟩ := h
  have : ¬ fvCount s.tasks = 1 := by
    intro he
    rw [h2.mpr he] at hv
    cases hv
  exact tasks_nil_of s.tasks (by omega) hu

theorem step_noop_during_vote (t : St) (e : Ev)
    (hv : t.isVoting = true) (hu : Task.undo ∉ t.tasks)
    (hf : Task.fetchPair ∉ t.tasks) (he : duringVoteOK e = true) :
    step t e = t := by
  cases e with
  | clickA | clickB | keyLeft | keyRight =>
      simp only [step, sendVoteStart]
      rw [if_pos hv]
  | keyBackspace =>
      simp only [step]
      rw [if_pos hv]
  | undoClick => simp [duringVoteOK] at he
  | voteResolve ok => simp [duringVoteOK] at he
  | fetchResolve r =>
      simp only [step, fetchNextPairResolve]
      rw [if_neg hf]
  | undoResolve ok =>
      simp only [step, handleUndoResolve]
      rw [if_neg hu]

theorem find?_vote_none (l : List Task) (hnv : ∀ p, Task.vote p ∉ l) :
    l.find? isVoteTask = none := by
  rw [List.find?_eq_none]
  intro x hx
  cases x with
  | vote p => exact absurd hx (hnv p)
  | fetchPair => simp
  | undo => simp

theorem step_noop_during_undo (t : St) (e : Ev)
    (hd : t.undoDisabled = true) (hnv : ∀ p, Task.vote p ∉ t.tasks)
    (hf : Task.fetchPair ∉ t.tasks) (he : duringUndoOK e = true) :
    step t e = t := by
  cases e with
  | clickA | clickB | keyLeft | keyRight => simp [duringUndoOK] at he
  | keyBackspace =>
      simp only [step]
      by_cases hv : t.isVoting = true
      · rw [if_pos hv]
      · rw [if_neg hv]
        cases t.currentPair with
        | none => rfl
        | some p => rw [if_pos hd]
  | undoClick =>
      simp only [step]
      rw [if_pos hd]
  | voteResolve ok =>
      simp only [step, sendVoteResolve]
      rw [find?_vote_none t.tasks hnv]
  | fetchResolve r =>
      simp only [step, fetchNextPairResolve]
      rw [if_neg hf]
  | undoResolve ok => simp [duringUndoOK] at he

theorem run_noop (t : St) (P : Ev → Bool)
    (hstep : ∀ e, P e = true → step t e = t) :
    ∀ mid : List Ev, mid.all P = true → run t mid = t := by
  intro mid
  induction mid with
  | nil => intro _; rfl
  | cons e rest ih =>
      intro hall
      rw [List.all_cons, Bool.and_eq_true] at hall
      simp only [run, hstep e hall.1]
      exact ih hall.2

end Rater

namespace Gallery

theorem photoUnits_le_two {α : Type} (orient : α → Orientation) (p : α) :
    photoUnits orient p ≤ 2 := by
  unfold photoUnits
  cases orient p <;> simp

theorem createLayout_rows_nonempty_aux {α : Type} (orient : α → Orientation) :
    ∀ (n : Nat) (l : List α), l.length ≤ n →
      ∀ r ∈ createLayout orient l, r ≠ [] := by
  intro n
  induction n with
  | zero =>
      intro l h r hr
      have : l = [] := List.length_eq_zero.mp (Nat.le_zero.mp h)
      subst this
      simp [createLayout] at hr
  | succ n ih =>
      intro l h r hr
      match l with
      | [] => simp [createLayout] at hr
      | p :: rest =>
          simp only [createLayout] at hr
          rcases List.mem_cons.mp hr with rfl | hr
          · simp
          · have hlen : rest.length ≤ n := by simpa using h
            have hrem : (fillRow orient rest (photoUnits orient p)).2.length ≤ n :=
              Nat.le_trans (fillRow_rem_length orient rest (photoUnits orient p)) hlen
            exact ih _ hrem r hr

/-- Claim C9: with capacity 4 and unit costs horizontal = 2, vertical = 1,
createLayout packs the input [H, V, V, H, V] into exactly the rows
[[H, V, V], [H, V]], whose unit totals are 4 and 3. -/
theorem c9_theorem :
    createLayout (fun o => o)
        [Orientation.horizontal, Orientation.vertical, Orientation.vertical,
         Orientation.horizontal, Orientation.vertical] =
      [[Orientation.horizontal, Orientation.vertical, Orientation.vertical],
       [Orientation.horizontal, Orientation.vertical]] ∧
    (createLayout (fun o => o)
        [Orientation.horizontal, Orientation.vertical, Orientation.vertical,
         Orientation.horizontal, Orientation.vertical]).map
        (fun r => (r.map (photoUnits (fun o => o))).sum) = [4, 3] := by
  constructor
  · simp [createLayout, fillRow, photoUnits, MAX_ROW_UNITS]
  · simp [createLayout, fillRow, photoUnits, MAX_ROW_UNITS]

/-- Claim C10: the concatenation of the rows produced by createLayout is
the input sequence itself (no photo dropped, duplicated or reordered);
every produced row is non-empty (the first photo of a row is admitted
regardless of its cost); and a photo whose unit cost alone exceeded the
capacity would sit alone in its row (with the costs 1 and 2 of this
program and capacity 4 no such photo exists, so that clause holds
vacuously). -/
theorem c10_theorem {α : Type} (orient : α → Orientation) (l : List α) :
    (createLayout orient l).flatten = l ∧
    (∀ r ∈ createLayout orient l, r ≠ []) ∧
    (∀ p ∈ l, MAX_ROW_UNITS < photoUnits orient p →
      ∀ r ∈ createLayout orient l, p ∈ r → r = [p]) := by
  refine ⟨createLayout_flatten_aux orient l.length l (Nat.le_refl _),
    createLayout_rows_nonempty_aux orient l.length l (Nat.le_refl _), ?_⟩
  intro p _ hgt
  have hle := photoUnits_le_two orient p
  have : (4 : Nat) < 2 := by
    calc (4 : Nat) = MAX_ROW_UNITS := rfl
    _ < photoUnits orient p := hgt
    _ ≤ 2 := hle
  omega

theorem c10_witness :
    (createLayout (fun o => o)
        [Orientation.horizontal, Orientation.vertical]).flatten =
      [Orientation.horizontal, Orientation.vertical] :=
  (c10_theorem (fun o => o) [Orientation.horizontal, Orientation.vertical]).1

end Gallery

namespace Rater

theorem step_voteEv (s : St) (ve : Ev) (h : isVoteEv ve = true) :
    step s ve = sendVoteStart s := by
  cases ve <;> first | rfl | simp [isVoteEv] at h

theorem pendingVotes_append (l l' : List Task) :
    pendingVotes (l ++ l') = pendingVotes l ++ pendingVotes l' := by
  simp [pendingVotes, List.filterMap_append]

theorem voteCount_zero_of_unlocked (s : St) (h : INV1 s)
    (hv : s.isVoting = false) : voteCount s.tasks = 0 := by
  obtain ⟨h1, h2⟩ := h
  have : ¬ fvCount s.tasks = 1 := by
    intro he
    rw [h2.mpr he] at hv
    cases hv
  have := voteCount_le_fvCount s.tasks
  omega

theorem voteCount_zero_of_noOverlap (s : St) (hno : overlap s = false)
    (hm : Task.undo ∈ s.tasks) : voteCount s.tasks = 0 := by
  unfold overlap at hno
  rw [Bool.and_eq_false_iff] at hno
  rcases hno with hno | hno
  · rw [voteCount, List.countP_eq_zero]
    intro t ht
    rcases List.any_eq_false.mp hno t ht with h
    simpa using h
  · have : s.tasks.any isUndoTask = true := List.any_eq_true.mpr ⟨_, hm, rfl⟩
    rw [this] at hno
    cases hno

end Rater

namespace Rater

/-- Claim C1 (amended): at every point of every execution, at most one
vote network round-trip is in flight.  (The second half of the original
claim fails: a vote round-trip and an undo round-trip can be in flight
simultaneously, because handleUndo is gated only by the disabled flag
of the button and never by isVoting; see the counterexample.) -/
theorem c1_theorem (v0 : Nat) (evs : List Ev) :
    voteCount (run (init v0) evs).tasks ≤ 1 :=
  Nat.le_trans (voteCount_le_fvCount _) (inv1_run evs _ (inv1_init v0)).1

/-- Claim C1 counterexample: a concrete execution (load a pair, vote on
it successfully, load the next pair, click to vote again, and click the
still-enabled undo button while that vote is in flight) reaches a state
whose task list holds a vote round-trip and an undo round-trip at the
same time. -/
theorem c1_counterexample :
    (∃ p, Task.vote p ∈
      (run (init 0) [Ev.fetchResolve (some pr1), Ev.clickA, Ev.voteResolve true,
        Ev.fetchResolve (some pr2), Ev.clickA, Ev.undoClick]).tasks) ∧
    Task.undo ∈
      (run (init 0) [Ev.fetchResolve (some pr1), Ev.clickA, Ev.voteResolve true,
        Ev.fetchResolve (some pr2), Ev.clickA, Ev.undoClick]).tasks := by
  exact ⟨⟨pr2, by decide⟩, by decide⟩

end Rater

namespace Rater

theorem c2inv_step (v0 : Nat) (s : St) (e : Ev) (he : succVoteEv e = true)
    (h : C2INV v0 s) : C2INV v0 (step s e) := by
  cases e with
  | clickA | clickB | keyLeft | keyRight =>
      simp only [step, sendVoteStart]
      by_cases hv : s.isVoting = true
      · rw [if_pos hv]; exact h
      · rw [if_neg hv]
        cases hc : s.currentPair with
        | none => exact h
        | some p =>
            unfold C2INV at h ⊢
            have h1 : voteCount [Task.vote p] = 1 := rfl
            simp only [voteCount_append, h1, List.length_cons]
            push_cast at h ⊢
            omega
  | keyBackspace => simp [succVoteEv] at he
  | undoClick => simp [succVoteEv] at he
  | undoResolve ok => simp [succVoteEv] at he
  | voteResolve ok =>
      have hok : ok = true := by simpa [succVoteEv] using he
      subst hok
      simp only [step, sendVoteResolve]
      cases hf : s.tasks.find? isVoteTask with
      | none => exact h
      | some t =>
          obtain ⟨p, rfl⟩ := find?_vote_shape s.tasks t hf
          have hcnt := countP_removeFirst isVoteTask isVoteTask s.tasks _ hf
          have hone : (if isVoteTask (Task.vote p) = true then 1 else 0) = 1 := by
            simp
          rw [hone] at hcnt
          have hcnt2 : voteCount s.tasks =
              voteCount (removeFirst isVoteTask s.tasks) + 1 := hcnt
          unfold C2INV at h ⊢
          have h2 : voteCount [Task.fetchPair] = 0 := rfl
          simp only [fetchNextPairStart]
          push_cast at h ⊢
          rw [voteCount_append, h2]
          push_cast
          omega
  | fetchResolve r =>
      have hsome : ∃ data, r = some data := by
        cases r with
        | none => simp [succVoteEv] at he
        | some data => exact ⟨data, rfl⟩
      obtain ⟨data, rfl⟩ := hsome
      simp only [step, fetchNextPairResolve]
      by_cases hm : Task.fetchPair ∈ s.tasks
      · rw [if_pos hm]
        have hsome2 : (s.tasks.find? isFetchTask).isSome = true :=
          List.find?_isSome.mpr ⟨Task.fetchPair, hm, rfl⟩
        have hfind : ∃ t, s.tasks.find? isFetchTask = some t := by
          cases hft : s.tasks.find? isFetchTask with
          | none => rw [hft] at hsome2; simp at hsome2
          | some t => exact ⟨t, rfl⟩
        obtain ⟨t, hft⟩ := hfind
        have htf : t = Task.fetchPair := by
          have := List.find?_some hft
          cases t <;> simp [isFetchTask] at this ⊢
        subst htf
        have hcnt := countP_removeFirst isFetchTask isVoteTask s.tasks _ hft
        simp only [isVoteTask_fetch] at hcnt
        have hcnt2 : voteCount (removeFirst isFetchTask s.tasks) =
            voteCount s.tasks := by
          simp at hcnt
          simpa [voteCount] using hcnt.symm
        unfold C2INV at h ⊢
        simpa [hcnt2] using h
      · rw [if_neg hm]; exact h

theorem c2inv_run (v0 : Nat) (evs : List Ev) :
    ∀ s : St, evs.all succVoteEv = true → C2INV v0 s → C2INV v0 (run s evs) := by
  induction evs with
  | nil => intro s _ h; exact h
  | cons e rest ih =>
      intro s hall h
      rw [List.all_cons, Bool.and_eq_true] at hall
      exact ih _ hall.2 (c2inv_step v0 s e hall.1 h)

/-- Claim C2 (amended): along any execution consisting only of
successful votes (vote inputs, successful vote settlements, successful
pair fetches), the counter plus the number of votes still in flight
equals the page-load value plus the history length; in particular after
each completed vote (no vote in flight) the counter equals the
page-load value plus the history length.  The original claim, counter =
history length, holds only for page-load value 0; see the
counterexample with page-load value 1. -/
theorem c2_theorem (v0 : Nat) (evs : List Ev) (h : evs.all succVoteEv = true) :
    C2INV v0 (run (init v0) evs) ∧
    (voteCount (run (init v0) evs).tasks = 0 →
      (run (init v0) evs).totalVotes =
        (v0 : Int) + ((run (init v0) evs).voteHistory.length : Int)) := by
  have hinit : C2INV v0 (init v0) := by
    unfold C2INV init fetchNextPairStart
    simp [voteCount, List.countP_cons]
  have hmain := c2inv_run v0 evs _ h hinit
  refine ⟨hmain, ?_⟩
  intro hz
  unfold C2INV at hmain
  rw [hz] at hmain
  push_cast at hmain ⊢
  omega

theorem c2_witness :
    C2INV 1 (run (init 1) [Ev.fetchResolve (some pr1), Ev.clickA, Ev.voteResolve true]) ∧
    (voteCount (run (init 1) [Ev.fetchResolve (some pr1), Ev.clickA,
        Ev.voteResolve true]).tasks = 0 →
      (run (init 1) [Ev.fetchResolve (some pr1), Ev.clickA,
        Ev.voteResolve true]).totalVotes =
        (1 : Int) + ((run (init 1) [Ev.fetchResolve (some pr1), Ev.clickA,
          Ev.voteResolve true]).voteHistory.length : Int)) :=
  c2_theorem 1 [Ev.fetchResolve (some pr1), Ev.clickA, Ev.voteResolve true] (by decide)

/-- Claim C2 counterexample: with the server-derived page-load value 1,
after one completed successful vote (no vote in flight) the counter is
2 while the history stack has length 1, so counter = history length
fails. -/
theorem c2_counterexample :
    voteCount (run (init 1) [Ev.fetchResolve (some pr1), Ev.clickA,
      Ev.voteResolve true, Ev.fetchResolve (some pr2)]).tasks = 0 ∧
    (run (init 1) [Ev.fetchResolve (some pr1), Ev.clickA, Ev.voteResolve true,
      Ev.fetchResolve (some pr2)]).totalVotes = 2 ∧
    ((run (init 1) [Ev.fetchResolve (some pr1), Ev.clickA, Ev.voteResolve true,
      Ev.fetchResolve (some pr2)]).voteHistory.length : Int) = 1 ∧
    (2 : Int) ≠ 1 := by
  refine ⟨by decide, by decide, by decide, by decide⟩

end Rater

namespace Rater

theorem find?_fetch_of_mem (l : List Task) (hm : Task.fetchPair ∈ l) :
    l.find? isFetchTask = some Task.fetchPair := by
  have hsome : (l.find? isFetchTask).isSome = true :=
    List.find?_isSome.mpr ⟨Task.fetchPair, hm, rfl⟩
  cases hft : l.find? isFetchTask with
  | none => rw [hft] at hsome; simp at hsome
  | some t =>
      have := List.find?_some hft
      cases t with
      | fetchPair => rfl
      | vote p => simp at this
      | undo => simp at this

theorem find?_undo_of_mem (l : List Task) (hm : Task.undo ∈ l) :
    l.find? isUndoTask = some Task.undo := by
  have hsome : (l.find? isUndoTask).isSome = true :=
    List.find?_isSome.mpr ⟨Task.undo, hm, rfl⟩
  cases hft : l.find? isUndoTask with
  | none => rw [hft] at hsome; simp at hsome
  | some t =>
      have := List.find?_some hft
      cases t with
      | undo => rfl
      | vote p => simp at this
      | fetchPair => simp at this

theorem pendingVotes_removeFetch (l : List Task) :
    pendingVotes (removeFirst isFetchTask l) = pendingVotes l :=
  filterMap_removeFirst isFetchTask voteProj
    (by intro t ht; cases t <;> simp at ht ⊢) l

theorem pendingVotes_removeUndo (l : List Task) :
    pendingVotes (removeFirst isUndoTask l) = pendingVotes l :=
  filterMap_removeFirst isUndoTask voteProj
    (by intro t ht; cases t <;> simp at ht ⊢) l

theorem c3inv_step (s : St) (e : Ev) (h1 : INV1 s) (hno : overlap s = false)
    (h : C3INV s) : C3INV (step s e) := by
  cases e with
  | clickA | clickB | keyLeft | keyRight =>
      simp only [step, sendVoteStart]
      by_cases hv : s.isVoting = true
      · rw [if_pos hv]; exact h
      · rw [if_neg hv]
        cases hc : s.currentPair with
        | none => exact h
        | some p =>
            have hvf : s.isVoting = false := by
              revert hv; cases s.isVoting <;> simp
            have hz : voteCount s.tasks = 0 := voteCount_zero_of_unlocked s h1 hvf
            have hpend : pendingVotes s.tasks = [] :=
              pendingVotes_nil_of_count_zero _ hz
            unfold C3INV at h ⊢
            rw [hpend] at h
            simp only [List.nil_append] at h
            rw [pendingVotes_append, hpend]
            have hone : pendingVotes [Task.vote p] = [p] := rfl
            rw [hone]
            simp [h]
  | keyBackspace =>
      simp only [step]
      by_cases hv : s.isVoting = true
      · rw [if_pos hv]; exact h
      · rw [if_neg hv]
        cases s.currentPair with
        | none => exact h
        | some p =>
            by_cases hd : s.undoDisabled = true
            · rw [if_pos hd]; exact h
            · rw [if_neg hd]
              unfold handleUndoStart
              by_cases he : s.voteHistory.isEmpty = true
              · rw [if_pos he]; exact h
              · rw [if_neg he]
                unfold C3INV at h ⊢
                rw [pendingVotes_append]
                have h0 : pendingVotes [Task.undo] = [] := rfl
                rw [h0]
                simpa using h
  | undoClick =>
      simp only [step]
      by_cases hd : s.undoDisabled = true
      · rw [if_pos hd]; exact h
      · rw [if_neg hd]
        unfold handleUndoStart
        by_cases he : s.voteHistory.isEmpty = true
        · rw [if_pos he]; exact h
        · rw [if_neg he]
          unfold C3INV at h ⊢
          rw [pendingVotes_append]
          have h0 : pendingVotes [Task.undo] = [] := rfl
          rw [h0]
          simpa using h
  | voteResolve ok =>
      simp only [step, sendVoteResolve]
      cases hf : s.tasks.find? isVoteTask with
      | none => exact h
      | some t =>
          obtain ⟨p, rfl⟩ := find?_vote_shape s.tasks t hf
          have hvc : voteCount s.tasks ≤ 1 :=
            Nat.le_trans (voteCount_le_fvCount _) h1.1
          obtain ⟨hpin1, hpin2⟩ := pending_pin s.tasks p hf hvc
          unfold C3INV at h
          rw [hpin1] at h
          cases ok with
          | true =>
              show C3INV (fetchNextPairStart
                { s with totalVotes := s.totalVotes + 1, undoDisabled := false,
                         tasks := removeFirst isVoteTask s.tasks,
                         server := p :: s.server })
              unfold C3INV fetchNextPairStart
              simp only
              rw [pendingVotes_append, hpin2]
              have h0 : pendingVotes [Task.fetchPair] = [] := rfl
              rw [h0]
              simpa using h
          | false =>
              show C3INV
                { s with voteHistory := s.voteHistory.tail, isVoting := false,
                         tasks := removeFirst isVoteTask s.tasks }
              unfold C3INV
              simp only
              rw [hpin2, h]
              simp
  | fetchResolve r =>
      simp only [step, fetchNextPairResolve]
      by_cases hm : Task.fetchPair ∈ s.tasks
      · rw [if_pos hm]
        cases r with
        | some data =>
            show C3INV
              { s with currentPair := some data, imgASrc := data.image_a.url,
                       imgBSrc := data.image_b.url, isVoting := false,
                       tasks := removeFirst isFetchTask s.tasks }
            unfold C3INV at h ⊢
            simp only
            rw [pendingVotes_removeFetch]
            exact h
        | none =>
            show C3INV
              { s with imgASrc := errorURL, imgBSrc := errorURL,
                       isVoting := false,
                       tasks := removeFirst isFetchTask s.tasks }
            unfold C3INV at h ⊢
            simp only
            rw [pendingVotes_removeFetch]
            exact h
      · rw [if_neg hm]; exact h
  | undoResolve ok =>
      simp only [step, handleUndoResolve]
      by_cases hm : Task.undo ∈ s.tasks
      · rw [if_pos hm]
        have hz : voteCount s.tasks = 0 := voteCount_zero_of_noOverlap s hno hm
        have hpend : pendingVotes s.tasks = [] :=
          pendingVotes_nil_of_count_zero _ hz
        unfold C3INV at h
        rw [hpend] at h
        simp only [List.nil_append] at h
        cases ok with
        | true =>
            cases hh : s.voteHistory with
            | nil =>
                show C3INV
                  { s with currentPair := none, voteHistory := [],
                           tasks := removeFirst isUndoTask s.tasks,
                           server := s.server.tail }
                unfold C3INV
                simp only
                rw [pendingVotes_removeUndo, hpend]
                rw [hh] at h
                rw [← h]
                simp
            | cons q rest =>
                show C3INV
                  { s with voteHistory := rest, currentPair := some q,
                           imgASrc := q.image_a.url, imgBSrc := q.image_b.url,
                           totalVotes := s.totalVotes - 1,
                           undoDisabled :=
                             if rest.isEmpty then s.undoDisabled else false,
                           tasks := removeFirst isUndoTask s.tasks,
                           server := s.server.tail }
                unfold C3INV
                simp only
                rw [pendingVotes_removeUndo, hpend]
                rw [hh] at h
                rw [← h]
                simp
        | false =>
            show C3INV
              { s with undoDisabled :=
                         if s.voteHistory.isEmpty then s.undoDisabled else false,
                       tasks := removeFirst isUndoTask s.tasks }
            unfold C3INV
            simp only
            rw [pendingVotes_removeUndo, hpend]
            simpa using h
      · rw [if_neg hm]; exact h

theorem c3inv_run (evs : List Ev) :
    ∀ s : St, INV1 s → C3INV s → traceNoOverlap s evs = true →
      C3INV (run s evs) := by
  induction evs with
  | nil => intro s _ h _; exact h
  | cons e rest ih =>
      intro s h1 h hto
      simp only [traceNoOverlap, Bool.and_eq_true, Bool.not_eq_true'] at hto
      exact ih _ (inv1_step s e h1) (c3inv_step s e h1 hto.1 h) hto.2

end Rater

namespace Rater

/-- Claim C3 (amended): in any execution in which a vote round-trip is
never in flight at the same time as an undo round-trip, the history
stack always equals the optimistic entries of the in-flight votes
followed by the server-confirmed, not-yet-undone votes of the session;
in particular, whenever no vote is in flight, an entry is on the stack
exactly when the corresponding vote was confirmed and not yet undone.
The original claim fails because sendVote pushes the entry before the
server answers, so during every vote round-trip an entry for an
unconfirmed vote is observable on the stack; see the counterexample. -/
theorem c3_theorem (v0 : Nat) (evs : List Ev)
    (h : traceNoOverlap (init v0) evs = true) :
    C3INV (run (init v0) evs) ∧
    (voteCount (run (init v0) evs).tasks = 0 →
      (run (init v0) evs).voteHistory = (run (init v0) evs).server) := by
  have hinit : C3INV (init v0) := rfl
  have hmain := c3inv_run evs _ (inv1_init v0) hinit h
  refine ⟨hmain, ?_⟩
  intro hz
  have hpend : pendingVotes (run (init v0) evs).tasks = [] :=
    pendingVotes_nil_of_count_zero _ hz
  unfold C3INV at hmain
  rw [hpend] at hmain
  simpa using hmain

theorem c3_witness :
    C3INV (run (init 0) [Ev.fetchResolve (some pr1), Ev.clickA,
      Ev.voteResolve true]) ∧
    (voteCount (run (init 0) [Ev.fetchResolve (some pr1), Ev.clickA,
        Ev.voteResolve true]).tasks = 0 →
      (run (init 0) [Ev.fetchResolve (some pr1), Ev.clickA,
        Ev.voteResolve true]).voteHistory =
      (run (init 0) [Ev.fetchResolve (some pr1), Ev.clickA,
        Ev.voteResolve true]).server) :=
  c3_theorem 0 [Ev.fetchResolve (some pr1), Ev.clickA, Ev.voteResolve true]
    (by decide)

/-- Claim C3 counterexample: in the reachable state where the second
vote is still in flight, the optimistic entry pr2 is observable on the
history stack although the server has confirmed only pr1 and never pr2,
so the stack holds an entry for an unconfirmed vote. -/
theorem c3_counterexample :
    Task.vote pr2 ∈ (run (init 0) [Ev.fetchResolve (some pr1), Ev.clickA,
      Ev.voteResolve true, Ev.fetchResolve (some pr2), Ev.clickA]).tasks ∧
    pr2 ∈ (run (init 0) [Ev.fetchResolve (some pr1), Ev.clickA,
      Ev.voteResolve true, Ev.fetchResolve (some pr2), Ev.clickA]).voteHistory ∧
    pr2 ∉ (run (init 0) [Ev.fetchResolve (some pr1), Ev.clickA,
      Ev.voteResolve true, Ev.fetchResolve (some pr2), Ev.clickA]).server := by
  refine ⟨by decide, by decide, by decide⟩

end Rater

namespace Rater

/-- Claim C5: the lock is held for the whole vote-plus-fetch window.  In
every reachable state, isVoting is true whenever a vote or a pair-fetch
round-trip is in flight; and the successful settling of a vote is one
atomic step whose result already has the next pair fetch in flight with
the lock still held; moreover every vote input arriving while the
window is open is a no-op.  Together these say the lock is true
continuously from the moment a vote begins until the subsequent fetch
settles, with no intermediate point at which it is false and a second
vote could be accepted. -/
theorem c5_theorem (s : St) (h : Reachable s) :
    ((Task.fetchPair ∈ s.tasks ∨ ∃ p, Task.vote p ∈ s.tasks) →
      s.isVoting = true) ∧
    (∀ e, isVoteEv e = true →
      (Task.fetchPair ∈ s.tasks ∨ ∃ p, Task.vote p ∈ s.tasks) →
      step s e = s) ∧
    (∀ p, Task.vote p ∈ s.tasks →
      Task.fetchPair ∈ (step s (Ev.voteResolve true)).tasks ∧
      (step s (Ev.voteResolve true)).isVoting = true) := by
  obtain ⟨h1, h2⟩ := inv1_reachable s h
  have hlock : (Task.fetchPair ∈ s.tasks ∨ ∃ p, Task.vote p ∈ s.tasks) →
      s.isVoting = true := by
    intro hm
    have hpos : 0 < fvCount s.tasks := by
      rcases hm with hm | ⟨p, hm⟩
      · exact List.countP_pos.mpr ⟨_, hm, rfl⟩
      · exact List.countP_pos.mpr ⟨_, hm, rfl⟩
    exact h2.mpr (by omega)
  refine ⟨hlock, ?_, ?_⟩
  · intro e he hm
    rw [step_voteEv s e he]
    unfold sendVoteStart
    rw [if_pos (hlock hm)]
  · intro p hm
    have hsome : (s.tasks.find? isVoteTask).isSome = true :=
      List.find?_isSome.mpr ⟨Task.vote p, hm, rfl⟩
    have hfind : ∃ t, s.tasks.find? isVoteTask = some t := by
      cases hft : s.tasks.find? isVoteTask with
      | none => rw [hft] at hsome; simp at hsome
      | some t => exact ⟨t, rfl⟩
    obtain ⟨t, hft⟩ := hfind
    obtain ⟨q, rfl⟩ := find?_vote_shape s.tasks t hft
    simp only [step, sendVoteResolve, hft]
    constructor
    · show Task.fetchPair ∈
        (fetchNextPairStart
          { s with totalVotes := s.totalVotes + 1, undoDisabled := false,
                   tasks := removeFirst isVoteTask s.tasks,
                   server := q :: s.server }).tasks
      unfold fetchNextPairStart
      simp
    · rfl

theorem c5_witness : (init 0).isVoting = true :=
  (c5_theorem (init 0) ⟨0, [], rfl⟩).1 (Or.inl (by decide))

/-- Claim C6 (amended): when a pair fetch or preload fails, the settling
step replaces both displayed images by the error placeholder and
releases the lock; and whenever no pair has ever been published
(currentPair is null, as after a failed initial load), every user input
leaves the state unchanged, so no vote can be submitted.  The original
claim that the machine accepts no further user action after every fetch
error fails: after a fetch error that follows a successful vote,
currentPair still holds the retired pair and the lock is free, so a
click or arrow key submits a vote for the stale pair; see the
counterexample. -/
theorem c6_theorem (s : St) (h : Reachable s) :
    (Task.fetchPair ∈ s.tasks →
      (step s (Ev.fetchResolve none)).imgASrc = errorURL ∧
      (step s (Ev.fetchResolve none)).imgBSrc = errorURL ∧
      (step s (Ev.fetchResolve none)).isVoting = false) ∧
    (s.currentPair = none → ∀ e, userEv e = true → step s e = s) := by
  constructor
  · intro hm
    simp [step, fetchNextPairResolve, if_pos hm]
  · intro hc e hu
    have hhist : s.voteHistory = [] := inv2_reachable s h hc
    cases e with
    | clickA | clickB | keyLeft | keyRight =>
        simp only [step, sendVoteStart, hc]
        split <;> rfl
    | keyBackspace =>
        simp only [step, hc]
        split <;> rfl
    | undoClick =>
        simp only [step, handleUndoStart, hhist]
        by_cases hd : s.undoDisabled = true
        · rw [if_pos hd]
        · rw [if_neg hd]
          simp
    | voteResolve ok => simp [userEv] at hu
    | fetchResolve r => simp [userEv] at hu
    | undoResolve ok => simp [userEv] at hu

theorem c6_witness :
    (step (init 0) (Ev.fetchResolve none)).imgASrc = errorURL ∧
    step (init 0) Ev.clickA = init 0 :=
  ⟨((c6_theorem (init 0) ⟨0, [], rfl⟩).1 (by decide)).1,
   (c6_theorem (init 0) ⟨0, [], rfl⟩).2 rfl Ev.clickA rfl⟩

/-- Claim C6 counterexample: after a successful vote whose follow-up
pair fetch fails, both images show the error placeholder, yet
currentPair still holds the retired pair and the lock is free, so the
next click is accepted: it changes the state (a new vote round-trip for
the stale pair goes into flight and the optimistic history entry is
pushed), contradicting that the machine accepts no further user action
until a new load. -/
theorem c6_counterexample :
    (run (init 0) [Ev.fetchResolve (some pr1), Ev.clickA, Ev.voteResolve true,
      Ev.fetchResolve none]).imgASrc = errorURL ∧
    (run (init 0) [Ev.fetchResolve (some pr1), Ev.clickA, Ev.voteResolve true,
      Ev.fetchResolve none]).imgBSrc = errorURL ∧
    step (run (init 0) [Ev.fetchResolve (some pr1), Ev.clickA,
      Ev.voteResolve true, Ev.fetchResolve none]) Ev.clickA ≠
      run (init 0) [Ev.fetchResolve (some pr1), Ev.clickA, Ev.voteResolve true,
        Ev.fetchResolve none] ∧
    (∃ p, Task.vote p ∈ (step (run (init 0) [Ev.fetchResolve (some pr1),
      Ev.clickA, Ev.voteResolve true, Ev.fetchResolve none])
        Ev.clickA).tasks) := by
  refine ⟨by decide, by decide, by decide, ⟨pr1, by decide⟩⟩

end Rater

namespace Rater

theorem isEmpty_false_of_ne (l : List Pair) (h : l ≠ []) : l.isEmpty = false := by
  cases l with
  | nil => exact absurd rfl h
  | cons a t => rfl

/-- Claim C4 (amended): from any reachable quiescent state with a
displayed pair (lock free, no undo in flight), a vote attempt that
fails restores the state exactly as it was immediately before the
attempt, history length, counter and both displayed images included,
and the lock ends free so a retry is possible, provided the undo
button is not clicked during the attempt.  The original unconditional
claim fails: an undo-button click during the round-trip is accepted
and makes the failing vote pop the wrong entry; see the
counterexample. -/
theorem c4_theorem (s : St) (p : Pair) (ve : Ev) (mid : List Ev)
    (hr : Reachable s) (hlock : s.isVoting = false)
    (hcp : s.currentPair = some p) (hundo : Task.undo ∉ s.tasks)
    (hve : isVoteEv ve = true) (hmid : mid.all duringVoteOK = true) :
    run s (ve :: mid ++ [Ev.voteResolve false]) = s := by
  have hnil : s.tasks = [] :=
    tasks_eq_nil_of_unlocked s (inv1_reachable s hr) hlock hundo
  obtain ⟨t1, ht1⟩ : ∃ t : St, t =
      { s with
        isVoting := true,
        voteHistory := p :: s.voteHistory,
        tasks := [Task.vote p] } := ⟨_, rfl⟩
  have h2 : step s ve = t1 := by
    rw [step_voteEv s ve hve]
    unfold sendVoteStart
    rw [hlock, hcp, hnil, ht1]
    simp [hcp]
  show run (step s ve) (mid ++ [Ev.voteResolve false]) = s
  rw [run_append, h2]
  have h3 : run t1 mid = t1 :=
    run_noop t1 duringVoteOK
      (fun e he => step_noop_during_vote t1 e (by rw [ht1]) (by rw [ht1]; simp)
        (by rw [ht1]; simp) he)
      mid hmid
  rw [h3]
  show step t1 (Ev.voteResolve false) = s
  rw [ht1]
  have h4 : step
      ({ s with
         isVoting := true,
         voteHistory := p :: s.voteHistory,
         tasks := [Task.vote p] })
      (Ev.voteResolve false) =
      { s with
        isVoting := false,
        voteHistory := s.voteHistory,
        tasks := [] } := rfl
  rw [h4, ← hlock, ← hnil]

theorem c4_witness :
    run (run (init 0) [Ev.fetchResolve (some pr1)])
      [Ev.clickA, Ev.voteResolve false] =
    run (init 0) [Ev.fetchResolve (some pr1)] :=
  c4_theorem (run (init 0) [Ev.fetchResolve (some pr1)]) pr1 Ev.clickA []
    ⟨0, [Ev.fetchResolve (some pr1)], rfl⟩ (by decide) (by decide) (by decide)
    (by decide) (by decide)

/-- Claim C4 counterexample: an undo-button click during a failing vote
round-trip is accepted (handleUndo checks no lock), the undo succeeds
and pops the optimistic entry, and the failing vote then pops the entry
underneath: afterwards the history length is 0 and the counter is 0,
although immediately before the attempt they were 1 and 1, refuting
failed-vote atomicity as stated. -/
theorem c4_counterexample :
    (run (init 0) [Ev.fetchResolve (some pr1), Ev.clickA, Ev.voteResolve true,
      Ev.fetchResolve (some pr2)]).voteHistory.length = 1 ∧
    (run (init 0) [Ev.fetchResolve (some pr1), Ev.clickA, Ev.voteResolve true,
      Ev.fetchResolve (some pr2)]).totalVotes = 1 ∧
    (run (init 0) [Ev.fetchResolve (some pr1), Ev.clickA, Ev.voteResolve true,
      Ev.fetchResolve (some pr2), Ev.clickA, Ev.undoClick, Ev.undoResolve true,
      Ev.voteResolve false]).voteHistory.length = 0 ∧
    (run (init 0) [Ev.fetchResolve (some pr1), Ev.clickA, Ev.voteResolve true,
      Ev.fetchResolve (some pr2), Ev.clickA, Ev.undoClick, Ev.undoResolve true,
      Ev.voteResolve false]).totalVotes = 0 := by
  refine ⟨by decide, by decide, by decide, by decide⟩

/-- Claim C7 (amended): from any reachable quiescent state displaying
pair P (lock free, no undo in flight), a successful vote followed by a
successful fetch of the next pair Q and then a successful undo pops
exactly the one pushed entry, restores exactly P as current pair and
display without any re-fetch (no task left in flight), returns the
counter to its pre-vote value (one less than its post-vote value), and
leaves undo enabled exactly when the history is still non-empty -
provided no new vote is clicked during the undo round-trip.  The
original unconditional claim fails: a click during the undo round-trip
starts a new vote whose optimistic entry is then popped, so the undo
restores Q instead of P; see the counterexample. -/
theorem c7_theorem (s : St) (P Q : Pair) (ve : Ev) (mid : List Ev)
    (hr : Reachable s) (hlock : s.isVoting = false)
    (hcp : s.currentPair = some P) (hundo : Task.undo ∉ s.tasks)
    (hve : isVoteEv ve = true) (hmid : mid.all duringUndoOK = true) :
    run s (ve :: Ev.voteResolve true :: Ev.fetchResolve (some Q) ::
        Ev.undoClick :: (mid ++ [Ev.undoResolve true])) =
      { s with
        currentPair := some P,
        imgASrc := P.image_a.url,
        imgBSrc := P.image_b.url,
        isVoting := false,
        undoDisabled := s.voteHistory.isEmpty,
        tasks := [] } := by
  have hnil : s.tasks = [] :=
    tasks_eq_nil_of_unlocked s (inv1_reachable s hr) hlock hundo
  obtain ⟨t1, ht1⟩ : ∃ t : St, t =
      { s with
        isVoting := true,
        voteHistory := P :: s.voteHistory,
        tasks := [Task.vote P] } := ⟨_, rfl⟩
  have h2 : step s ve = t1 := by
    rw [step_voteEv s ve hve]
    unfold sendVoteStart
    rw [hlock, hcp, hnil, ht1]
    simp [hcp]
  obtain ⟨t4, ht4⟩ : ∃ t : St, t =
      { s with
        currentPair := some Q,
        voteHistory := P :: s.voteHistory,
        totalVotes := s.totalVotes + 1,
        isVoting := false,
        undoDisabled := true,
        imgASrc := Q.image_a.url,
        imgBSrc := Q.image_b.url,
        tasks := [Task.undo],
        server := P :: s.server } := ⟨_, rfl⟩
  have h3 : run t1 [Ev.voteResolve true, Ev.fetchResolve (some Q),
      Ev.undoClick] = t4 := by
    rw [ht1, ht4]
    rfl
  show run (step s ve) (Ev.voteResolve true :: Ev.fetchResolve (some Q) ::
      Ev.undoClick :: (mid ++ [Ev.undoResolve true])) = _
  rw [h2]
  show run t1 ([Ev.voteResolve true, Ev.fetchResolve (some Q),
      Ev.undoClick] ++ (mid ++ [Ev.undoResolve true])) = _
  rw [run_append, h3, run_append]
  have h5 : run t4 mid = t4 :=
    run_noop t4 duringUndoOK
      (fun e he => step_noop_during_undo t4 e (by rw [ht4]) (by rw [ht4]; simp)
        (by rw [ht4]; simp) he)
      mid hmid
  rw [h5]
  show step t4 (Ev.undoResolve true) = _
  rw [ht4]
  have h6 : step
      ({ s with
         currentPair := some Q,
         voteHistory := P :: s.voteHistory,
         totalVotes := s.totalVotes + 1,
         isVoting := false,
         undoDisabled := true,
         imgASrc := Q.image_a.url,
         imgBSrc := Q.image_b.url,
         tasks := [Task.undo],
         server := P :: s.server })
      (Ev.undoResolve true) =
      { s with
        currentPair := some P,
        voteHistory := s.voteHistory,
        totalVotes := s.totalVotes + 1 - 1,
        isVoting := false,
        undoDisabled := if s.voteHistory.isEmpty then true else false,
        imgASrc := P.image_a.url,
        imgBSrc := P.image_b.url,
        tasks := [],
        server := s.server } := rfl
  rw [h6]
  ext
  · rfl
  · rfl
  · simp
  · rfl
  · cases s.voteHistory <;> simp
  · rfl
  · rfl
  · rfl
  · rfl

theorem c7_witness :
    run (run (init 0) [Ev.fetchResolve (some pr1)])
      [Ev.clickA, Ev.voteResolve true, Ev.fetchResolve (some pr2),
       Ev.undoClick, Ev.undoResolve true] =
    { run (init 0) [Ev.fetchResolve (some pr1)] with
        currentPair := some pr1, imgASrc := pr1.image_a.url,
        imgBSrc := pr1.image_b.url, isVoting := false,
        undoDisabled :=
          (run (init 0) [Ev.fetchResolve (some pr1)]).voteHistory.isEmpty,
        tasks := [] } :=
  c7_theorem (run (init 0) [Ev.fetchResolve (some pr1)]) pr1 pr2 Ev.clickA []
    ⟨0, [Ev.fetchResolve (some pr1)], rfl⟩ (by decide) (by decide) (by decide)
    (by decide) (by decide)

/-- Claim C7 counterexample: immediately after a successful vote on pr1
(with pr2 then displayed), an undo is started; while it is in flight a
click starts a new vote on pr2 (sendVote is not gated by the in-flight
undo), so when the undo succeeds it pops and restores pr2, not the pair
pr1 whose vote was undone. -/
theorem c7_counterexample :
    (run (init 0) [Ev.fetchResolve (some pr1), Ev.clickA, Ev.voteResolve true,
      Ev.fetchResolve (some pr2), Ev.undoClick, Ev.clickA,
      Ev.undoResolve true]).currentPair = some pr2 ∧
    (run (init 0) [Ev.fetchResolve (some pr1), Ev.clickA, Ev.voteResolve true,
      Ev.fetchResolve (some pr2), Ev.undoClick, Ev.clickA,
      Ev.undoResolve true]).currentPair ≠ some pr1 ∧
    (run (init 0) [Ev.fetchResolve (some pr1), Ev.clickA, Ev.voteResolve true,
      Ev.fetchResolve (some pr2)]).voteHistory = [pr1] := by
  refine ⟨by decide, by decide, by decide⟩

/-- Claim C8 (amended): from any reachable quiescent state with
non-empty history and the undo control enabled (lock free, no other
round-trip in flight), an undo attempt that fails leaves the state
exactly unchanged, history length, counter and displayed pair included,
and ends with the undo control enabled, provided no vote is clicked
during the round-trip.  The original unconditional claim fails: a
click during the undo round-trip starts a vote whose optimistic push
changes the history length before the undo failure settles; see the
counterexample. -/
theorem c8_theorem (s : St) (mid : List Ev) (hr : Reachable s)
    (hlock : s.isVoting = false) (hh : s.voteHistory ≠ [])
    (hen : s.undoDisabled = false) (hundo : Task.undo ∉ s.tasks)
    (hmid : mid.all duringUndoOK = true) :
    run s (Ev.undoClick :: (mid ++ [Ev.undoResolve false])) = s := by
  have hnil : s.tasks = [] :=
    tasks_eq_nil_of_unlocked s (inv1_reachable s hr) hlock hundo
  have hne : s.voteHistory.isEmpty = false := isEmpty_false_of_ne _ hh
  obtain ⟨t1, ht1⟩ : ∃ t : St, t =
      { s with
        undoDisabled := true,
        tasks := [Task.undo] } := ⟨_, rfl⟩
  have h2 : step s Ev.undoClick = t1 := by
    simp only [step, handleUndoStart]
    rw [hen, hne, hnil, ht1]
    simp
  show run (step s Ev.undoClick) (mid ++ [Ev.undoResolve false]) = s
  rw [h2, run_append]
  have h3 : run t1 mid = t1 :=
    run_noop t1 duringUndoOK
      (fun e he => step_noop_during_undo t1 e (by rw [ht1]) (by rw [ht1]; simp)
        (by rw [ht1]; simp) he)
      mid hmid
  rw [h3]
  show step t1 (Ev.undoResolve false) = s
  rw [ht1]
  have h4 : step
      ({ s with
         undoDisabled := true,
         tasks := [Task.undo] })
      (Ev.undoResolve false) =
      { s with
        undoDisabled := if s.voteHistory.isEmpty then true else false,
        tasks := [] } := rfl
  rw [h4]
  ext <;> simp [hne, hen, hnil]

theorem c8_witness :
    run (run (init 0) [Ev.fetchResolve (some pr1), Ev.clickA,
        Ev.voteResolve true, Ev.fetchResolve (some pr2)])
      [Ev.undoClick, Ev.undoResolve false] =
    run (init 0) [Ev.fetchResolve (some pr1), Ev.clickA, Ev.voteResolve true,
      Ev.fetchResolve (some pr2)] :=
  c8_theorem (run (init 0) [Ev.fetchResolve (some pr1), Ev.clickA,
      Ev.voteResolve true, Ev.fetchResolve (some pr2)]) []
    ⟨0, [Ev.fetchResolve (some pr1), Ev.clickA, Ev.voteResolve true,
      Ev.fetchResolve (some pr2)], rfl⟩
    (by decide) (by decide) (by decide) (by decide) (by decide)

/-- Claim C8 counterexample: with one entry in the history, an undo is
started; while it is in flight a click starts a vote (pushing its
optimistic entry), and the undo then fails: the history length after
the failed undo attempt is 2, not the 1 it was immediately before the
attempt, refuting that a failed undo leaves the history length
unchanged. -/
theorem c8_counterexample :
    (run (init 0) [Ev.fetchResolve (some pr1), Ev.clickA, Ev.voteResolve true,
      Ev.fetchResolve (some pr2)]).voteHistory.length = 1 ∧
    (run (init 0) [Ev.fetchResolve (some pr1), Ev.clickA, Ev.voteResolve true,
      Ev.fetchResolve (some pr2), Ev.undoClick, Ev.clickA,
      Ev.undoResolve false]).voteHistory.length = 2 := by
  refine ⟨by decide, by decide⟩

end Rater
